import Mathlib

/-!
Verification of the convergence / equation-of-state / anharmonicity routines of
the atomate2 repository (FHI-aims branch).  Each Python function named in the
claims is translated into a Lean definition over a shallow embedding:

* the convergence-iteration state machine (`atomate2/aims/jobs/convergence.py`),
* the AEWF equation-of-state post-processing (`atomate2/common/schemas/aewf.py`,
  `atomate2/common/jobs/aewf.py`),
* the anharmonicity displacement / force-reconstruction mathematics
  (`atomate2/common/jobs/anharmonicity.py`).

Machine floats are modelled by exact numbers (`ℚ`, `ℝ`, `ℂ`); numpy arrays are
modelled by functions out of `Fin`-types (row-major reshapes become explicit
division/remainder index arithmetic); external library calls (`np.polyfit`,
`np.roots`, `np.linalg.eigh`, the random number generator, CPython
`str`/`float`) are parameters of the embedded functions, while everything the
repository itself computes is translated definitionally.
-/

/-! ## Convergence data (`convergence.json`)

The JSON dictionary written by `update_convergence_file` has the keys
`criterion_name`, `criterion_values`, `convergence_field_name`,
`convergence_field_values`, `converged`, `idx`. -/

/-- Contents of a `convergence.json` file, as read and written by
`update_convergence_file` in `atomate2/aims/jobs/convergence.py`.
The type `α` is the type of the convergence-field values. -/
structure ConvData (α : Type) where
  criterion_name : String
  criterion_values : List ℚ
  convergence_field_name : String
  convergence_field_values : List α
  converged : Bool
  idx : Nat
deriving DecidableEq

/-- Python exceptions that the embedded fallible code can raise. -/
inductive PyError where
  | unboundLocal
  | indexError
deriving DecidableEq

/-- Python negative index `l[-1]` for a list known to be nonempty
(default `0` is never exercised at the call sites). -/
def pyLast (l : List ℚ) : ℚ := l.getD (l.length - 1) 0

/-- Python negative index `l[-2]` for a list of length at least two
(default `0` is never exercised at the call sites). -/
def pyPenult (l : List ℚ) : ℚ := l.getD (l.length - 2) 0

/-- Shallow embedding of `update_convergence_file`
(`atomate2/aims/jobs/convergence.py`, lines 124-189).

The filesystem argument `prev` models the Python `prev_dir` argument together
with the read of `prev_dir / "convergence.json"`:
`none` is `prev_dir=None`; `some none` is a previous directory without a
convergence file (the Python function then reads the unbound local variable
`convergence_data`, an `UnboundLocalError`); `some (some d)` is a previous
directory whose convergence file holds `d`.  The value
`outputValue` models `getattr(output.output, criterion_name)`, the criterion
value of the current step.  Indexing `convergence_steps[idx]` out of range is
an `IndexError`.  The returned record is the dictionary written to
`job_dir / "convergence.json"`.

The function `update_core` is the common tail of `update_convergence_file`
(lines 172-189 of the source): appending `convergence_steps[idx]` and the
current criterion value, setting `idx`, and recomputing `converged` when more
than one criterion value is recorded. -/
def update_core {α : Type} (convergence_steps : List α) (outputValue : ℚ)
    (epsilon : ℚ) (idx : Nat) (data0 : ConvData α) :
    Except PyError (ConvData α) :=
  match convergence_steps.get? idx with
  | none => .error .indexError
  | some stepVal =>
    let data : ConvData α := { data0 with
      convergence_field_values := data0.convergence_field_values ++ [stepVal]
      criterion_values := data0.criterion_values ++ [outputValue]
      idx := idx }
    .ok
      (if 1 < data.criterion_values.length then
        { data with
          converged :=
            decide
              (|pyLast data.criterion_values - pyPenult data.criterion_values| <
                epsilon) }
      else data)

/-- Shallow embedding of `update_convergence_file` itself: the branching on
`prev_dir` at the top of the function (lines 155-171 of the source), followed
by the common tail `update_core`. -/
def update_convergence_file {α : Type} (criterion_name : String) (epsilon : ℚ)
    (convergence_field : String) (convergence_steps : List α) (outputValue : ℚ)
    (prev : Option (Option (ConvData α))) : Except PyError (ConvData α) :=
  match prev with
  | none =>
      update_core convergence_steps outputValue epsilon 0
        { criterion_name := criterion_name
          criterion_values := []
          convergence_field_name := convergence_field
          convergence_field_values := []
          converged := false
          idx := 0 }
  | some none => .error .unboundLocal
  | some (some d) => update_core convergence_steps outputValue epsilon (d.idx + 1) d

/-! ## The convergence iteration state machine (`ConvergenceMaker.make`) -/

/-- A symbolic reference to the output directory of the base job of the
replacement flow (`next_base_job.output.dir_name` in the source, a jobflow
output reference resolved only at execution time). -/
inductive JobDirRef where
  | baseOutputDir
deriving DecidableEq

/-- The jobs `ConvergenceMaker.make` can put into its replacement flow:
the base calculation job (with the previous directory it receives, the
convergence field it sets, the value that field is set to, and the index
appended to its name), the `update_convergence_file` job with its arguments,
and the recursive `ConvergenceMaker.make` job. -/
inductive ConvJob (α : Type) where
  | base (prevDir : Option String) (fieldName : String) (fieldValue : Option α)
      (label : Nat)
  | updateFile (prevDir : Option String) (jobDir : JobDirRef)
      (criterionName : String) (epsilon : ℚ) (fieldName : String) (steps : List α)
  | recurseMake (prevDir : JobDirRef)
deriving DecidableEq

/-- The result of one invocation of `ConvergenceMaker.make`: either a
`Response(replace=Flow [...])` carrying the list of jobs of the replacement
flow, or the terminal `ConvergenceSummary` built from the previous
directory. -/
inductive MakeResult (α : Type) where
  | replace (jobs : List (ConvJob α))
  | summary (prevDir : Option String)
deriving DecidableEq

/-- A previous calculation directory: its (host-stripped) path and the
contents of its convergence file, when that file exists. -/
structure PrevDir (α : Type) where
  path : String
  convFile : Option (ConvData α)
deriving DecidableEq

/-- Shallow embedding of `ConvergenceMaker.make`
(`atomate2/aims/jobs/convergence.py`, lines 55-121).  The maker fields
`convergence_field`, `convergence_steps`, `criterion_name`, `epsilon` are
arguments; `prev_dir` models the `prev_dir` argument together with the read of
its convergence file.  The terminal branch builds
`ConvergenceSummary.from_aims_calc_doc(AimsTaskDoc.from_directory(prev_dir))`,
recorded here as `MakeResult.summary` of the previous directory. -/
def ConvergenceMaker.make {α : Type} (convergence_field : String)
    (convergence_steps : List α) (criterion_name : String) (epsilon : ℚ)
    (prev_dir : Option (PrevDir α)) : MakeResult α :=
  let idxConv : Nat × Bool :=
    match prev_dir with
    | none => (0, false)
    | some d =>
      match d.convFile with
      | none => (1, false)
      | some data => (data.idx + 1, data.converged)
  let idx := idxConv.1
  let converged := idxConv.2
  let prevDirNoHost := prev_dir.map (·.path)
  if idx < convergence_steps.length ∧ converged = false then
    .replace
      [.base prevDirNoHost convergence_field (convergence_steps.get? idx) idx,
       .updateFile prevDirNoHost .baseOutputDir criterion_name epsilon
         convergence_field convergence_steps,
       .recurseMake .baseOutputDir]
  else
    .summary prevDirNoHost

/-- C1: `ConvergenceMaker.make` computes the step index `idx` as 0 when no
previous directory is given, 1 when a previous directory without a convergence
file is given, and the recorded `idx + 1` otherwise; when
`idx < len(convergence_steps)` and the recorded run is not converged it
replaces itself with a flow of exactly three jobs — the base calculation job
with the convergence field set to `convergence_steps[idx]`, the
`update_convergence_file` job, and a recursive `make` job — and otherwise it
returns the `ConvergenceSummary` built from the previous directory without
replacing itself. -/
theorem C1_convergence_maker_make {α : Type} (convergence_field : String)
    (convergence_steps : List α) (criterion_name : String) (epsilon : ℚ)
    (prev_dir : Option (PrevDir α)) :
    ConvergenceMaker.make convergence_field convergence_steps criterion_name
        epsilon prev_dir =
      (let idx : Nat :=
        match prev_dir with
        | none => 0
        | some d =>
          match d.convFile with
          | none => 1
          | some data => data.idx + 1
      let converged : Bool :=
        match prev_dir with
        | none => false
        | some d =>
          match d.convFile with
          | none => false
          | some data => data.converged
      if idx < convergence_steps.length ∧ converged = false then
        MakeResult.replace
          [ConvJob.base (prev_dir.map (·.path)) convergence_field
             (convergence_steps.get? idx) idx,
           ConvJob.updateFile (prev_dir.map (·.path)) JobDirRef.baseOutputDir
             criterion_name epsilon convergence_field convergence_steps,
           ConvJob.recurseMake JobDirRef.baseOutputDir]
      else
        MakeResult.summary (prev_dir.map (·.path))) := by
  cases prev_dir with
  | none => rfl
  | some d =>
    cases h : d.convFile with
    | none => simp [ConvergenceMaker.make, h]
    | some data => simp [ConvergenceMaker.make, h]

/-- C2 (counterexample): the claim fails as stated.  With a previous
convergence file recording `converged=True` but no criterion values (allowed
by the claim's quantification over runs whose convergence file exists), the
written file holds a single criterion value yet keeps `converged=True`,
violating both the claimed iff and the claimed
"with fewer than two recorded values converged remains False". -/
theorem C2_update_convergence_file_counterexample :
    ¬ (∀ out : ConvData ℚ,
        update_convergence_file "e" (1 : ℚ) "f" [(0 : ℚ), 0] 0
            (some (some ⟨"e", [], "f", [], true, 0⟩)) = Except.ok out →
          (out.converged = true ↔
            2 ≤ out.criterion_values.length ∧
              |pyLast out.criterion_values - pyPenult out.criterion_values| <
                1)) := by
  intro h
  have hrun : update_convergence_file "e" (1 : ℚ) "f" [(0 : ℚ), 0] 0
      (some (some ⟨"e", [], "f", [], true, 0⟩)) =
      Except.ok ⟨"e", [0], "f", [0], true, 1⟩ := rfl
  have := (h ⟨"e", [0], "f", [0], true, 1⟩ hrun).mp rfl
  exact absurd this.1 (by decide)

/-- C2 (amended): for every run with `prev_dir` either `None` or naming a
directory whose convergence file exists *and records at least one criterion
value* (every file the workflow itself writes does), the written file has
`converged=True` if and only if at least two criterion values are recorded
and the absolute difference of the last two is strictly below `epsilon`;
with fewer than two recorded values `converged` is `False`. -/
theorem C2_update_convergence_file_amended {α : Type} (criterion_name : String)
    (epsilon : ℚ) (convergence_field : String) (convergence_steps : List α)
    (outputValue : ℚ) (prev : Option (Option (ConvData α)))
    (hprev : prev = none ∨
      ∃ d, prev = some (some d) ∧ d.criterion_values ≠ [])
    (out : ConvData α)
    (hout : update_convergence_file criterion_name epsilon convergence_field
      convergence_steps outputValue prev = Except.ok out) :
    (out.converged = true ↔
      2 ≤ out.criterion_values.length ∧
        |pyLast out.criterion_values - pyPenult out.criterion_values| <
          epsilon) ∧
    (out.criterion_values.length < 2 → out.converged = false) := by
  rcases hprev with hp | ⟨d, hp, hd⟩ <;> subst hp
  · rcases hstep : convergence_steps[(0 : Nat)]? with _ | v <;>
      simp [update_convergence_file, update_core, hstep] at hout
    subst hout
    exact ⟨by simp, fun _ => rfl⟩
  · have h0 : 0 < d.criterion_values.length := List.length_pos.mpr hd
    rcases hstep : convergence_steps[d.idx + 1]? with _ | v <;>
      simp [update_convergence_file, update_core, hstep] at hout
    rw [if_pos h0] at hout
    subst hout
    constructor
    · simp only [decide_eq_true_eq]
      constructor
      · intro hP
        refine ⟨by simp; omega, hP⟩
      · exact fun hP => hP.2
    · intro hcon
      simp at hcon
      omega

/-- C2 (witness): a concrete run of the amended theorem, with `prev_dir=None`;
the single recorded criterion value leaves `converged=False`. -/
theorem C2_update_convergence_file_witness :
    update_convergence_file "e" (1 : ℚ) "f" [(3 : ℚ)] 0 none =
        Except.ok ⟨"e", [0], "f", [3], false, 0⟩ ∧
      (⟨"e", [0], "f", [3], false, 0⟩ : ConvData ℚ).converged = false := by
  have hout : update_convergence_file "e" (1 : ℚ) "f" [(3 : ℚ)] 0 none =
      Except.ok ⟨"e", [0], "f", [3], false, 0⟩ := rfl
  exact ⟨hout,
    (C2_update_convergence_file_amended "e" 1 "f" [(3 : ℚ)] 0 none (Or.inl rfl)
      _ hout).2 (by decide)⟩

/-! ## BSON-safe scaling-factor encoding (`float2bson` / `bson2float`) -/

/-- Python `str.replace` with single-character `old` and `new` arguments, on
the character-list level: every occurrence of `old` is replaced by `new`. -/
def pyReplaceChar (old new : Char) (s : List Char) : List Char :=
  s.map (fun c => if c = old then new else c)

/-- Shallow embedding of `float2bson` (`atomate2/common/jobs/aewf.py`,
lines 22-24): `str(eta).replace(".", "_")`.  CPython `str` on floats is
external and is the parameter `pyStr`; for a finite float it produces a
repr-round-trippable decimal string that never contains an underscore. -/
def float2bson {F : Type} (pyStr : F → List Char) (x : F) : List Char :=
  pyReplaceChar '.' '_' (pyStr x)

/-- Shallow embedding of `bson2float` (`atomate2/common/schemas/aewf.py`,
lines 106-119): `float(eta.replace("_", "."))`.  CPython `float` parsing is
external and is the parameter `pyFloat`. -/
def bson2float {F : Type} (pyFloat : List Char → F) (s : List Char) : F :=
  pyFloat (pyReplaceChar '_' '.' s)

/-- Replacing `.` by `_` and then `_` by `.` is the identity on strings that
contain no underscore. -/
theorem pyReplaceChar_roundtrip (l : List Char) (h : '_' ∉ l) :
    pyReplaceChar '_' '.' (pyReplaceChar '.' '_' l) = l := by
  induction l with
  | nil => rfl
  | cons c t ih =>
    have hc : c ≠ '_' := fun hcc => h (hcc ▸ List.mem_cons_self c t)
    have ht : '_' ∉ t := fun htt => h (List.mem_cons_of_mem c htt)
    by_cases hdot : c = '.'
    · simp [pyReplaceChar, hdot] at ih ⊢
      simpa [pyReplaceChar] using ih ht
    · simp [pyReplaceChar, hdot, hc] at ih ⊢
      simpa [pyReplaceChar] using ih ht

/-- C9: round-trip of the BSON-safe scaling-factor encoding.  For every value
`x` whose CPython string form parses back to `x` (CPython guarantees
`float(str(x)) == x` for every finite float) and contains no underscore
(true of every CPython float string), `bson2float (float2bson x) = x`. -/
theorem C9_bson_roundtrip {F : Type} (pyStr : F → List Char)
    (pyFloat : List Char → F) (x : F) (hparse : pyFloat (pyStr x) = x)
    (hnous : '_' ∉ pyStr x) :
    bson2float pyFloat (float2bson pyStr x) = x := by
  unfold bson2float float2bson
  rw [pyReplaceChar_roundtrip (pyStr x) hnous, hparse]

/-- C9 (witness): the round trip at the concrete value `3/2` with the string
form `"1.5"`. -/
theorem C9_bson_roundtrip_witness :
    bson2float (fun _ => (3 / 2 : ℚ))
      (float2bson (fun _ => ['1', '.', '5']) (3 / 2 : ℚ)) = (3 / 2 : ℚ) :=
  C9_bson_roundtrip (fun _ => ['1', '.', '5']) (fun _ => (3 / 2 : ℚ)) (3 / 2 : ℚ)
    rfl (by decide)

/-! ## AEWF equation-of-state post-processing (`AEWFDoc.from_outputs`) -/

/-- Fields of one EOS task document that `AEWFDoc.from_outputs` reads:
`task_doc.output.structure.volume` and `task_doc.output.free_energy` (which is
`None` for a failed calculation). -/
structure TaskOutput where
  volume : ℚ
  free_energy : Option ℚ

/-- One entry of the `eos_outputs` dictionary of `AEWFDoc.from_outputs`:
the scaling factor (the dictionary key, decoded by `bson2float`), the job
uuid, the job directory `task_doc.dir_name`, and the task output. -/
structure EosOut where
  eta : ℚ
  uuid : String
  dir_name : String
  out : TaskOutput

/-- The five lists accumulated by the loop of `AEWFDoc.from_outputs`
(`atomate2/common/schemas/aewf.py`, lines 239-293): `volumes`, `energies`,
`scaling_factors`, and the `eos_jobdirs` / `eos_uuids` stored in
`AEWFDirs` / `AEWFUUIDs`. -/
structure AewfLists where
  volumes : List ℚ
  energies : List ℚ
  scaling_factors : List ℚ
  eos_jobdirs : List String
  eos_uuids : List String
deriving DecidableEq

/-- Shallow embedding of the accumulation loop of `AEWFDoc.from_outputs`
(lines 255-274 of `atomate2/common/schemas/aewf.py`): outputs with
`free_energy is None` only produce a warning; all others append their volume,
energy, scaling factor, directory and uuid to the five lists. -/
def AEWFDoc.from_outputs_lists (outs : List EosOut) : AewfLists :=
  outs.foldl
    (fun acc o =>
      match o.out.free_energy with
      | some e =>
        { volumes := acc.volumes ++ [o.out.volume]
          energies := acc.energies ++ [e]
          scaling_factors := acc.scaling_factors ++ [o.eta]
          eos_jobdirs := acc.eos_jobdirs ++ [o.dir_name]
          eos_uuids := acc.eos_uuids ++ [o.uuid] }
      | none => acc)
    ⟨[], [], [], [], []⟩

/-- Characterization of the accumulation loop with an arbitrary starting
accumulator: it appends the per-field images of the outputs that have a
free energy. -/
theorem from_outputs_lists_foldl (outs : List EosOut) (acc : AewfLists) :
    outs.foldl
      (fun acc o =>
        match o.out.free_energy with
        | some e =>
          { volumes := acc.volumes ++ [o.out.volume]
            energies := acc.energies ++ [e]
            scaling_factors := acc.scaling_factors ++ [o.eta]
            eos_jobdirs := acc.eos_jobdirs ++ [o.dir_name]
            eos_uuids := acc.eos_uuids ++ [o.uuid] }
        | none => acc)
      acc =
    { volumes := acc.volumes ++
        (outs.filter (fun o => o.out.free_energy.isSome)).map
          (fun o => o.out.volume)
      energies := acc.energies ++
        (outs.filter (fun o => o.out.free_energy.isSome)).map
          (fun o => o.out.free_energy.getD 0)
      scaling_factors := acc.scaling_factors ++
        (outs.filter (fun o => o.out.free_energy.isSome)).map (fun o => o.eta)
      eos_jobdirs := acc.eos_jobdirs ++
        (outs.filter (fun o => o.out.free_energy.isSome)).map
          (fun o => o.dir_name)
      eos_uuids := acc.eos_uuids ++
        (outs.filter (fun o => o.out.free_energy.isSome)).map
          (fun o => o.uuid) } := by
  induction outs generalizing acc with
  | nil => simp
  | cons o t ih =>
    rcases hfe : o.out.free_energy with _ | e
    · simp only [List.foldl_cons, hfe]
      rw [ih]
      simp [List.filter_cons, hfe]
    · simp only [List.foldl_cons, hfe]
      rw [ih]
      simp [List.filter_cons, hfe]

/-- C10: in `AEWFDoc.from_outputs`, outputs whose `free_energy` is `None` are
excluded from all five result lists, which are therefore index-aligned maps
over the kept outputs and all have length equal to the number of outputs with
a non-`None` free energy. -/
theorem C10_from_outputs_alignment (outs : List EosOut) :
    (AEWFDoc.from_outputs_lists outs).volumes =
        (outs.filter (fun o => o.out.free_energy.isSome)).map
          (fun o => o.out.volume) ∧
    (AEWFDoc.from_outputs_lists outs).energies =
        (outs.filter (fun o => o.out.free_energy.isSome)).map
          (fun o => o.out.free_energy.getD 0) ∧
    (AEWFDoc.from_outputs_lists outs).scaling_factors =
        (outs.filter (fun o => o.out.free_energy.isSome)).map
          (fun o => o.eta) ∧
    (AEWFDoc.from_outputs_lists outs).eos_jobdirs =
        (outs.filter (fun o => o.out.free_energy.isSome)).map
          (fun o => o.dir_name) ∧
    (AEWFDoc.from_outputs_lists outs).eos_uuids =
        (outs.filter (fun o => o.out.free_energy.isSome)).map
          (fun o => o.uuid) ∧
    (AEWFDoc.from_outputs_lists outs).volumes.length =
        outs.countP (fun o => o.out.free_energy.isSome) ∧
    (AEWFDoc.from_outputs_lists outs).energies.length =
        (AEWFDoc.from_outputs_lists outs).volumes.length ∧
    (AEWFDoc.from_outputs_lists outs).scaling_factors.length =
        (AEWFDoc.from_outputs_lists outs).volumes.length ∧
    (AEWFDoc.from_outputs_lists outs).eos_jobdirs.length =
        (AEWFDoc.from_outputs_lists outs).volumes.length ∧
    (AEWFDoc.from_outputs_lists outs).eos_uuids.length =
        (AEWFDoc.from_outputs_lists outs).volumes.length := by
  have h := from_outputs_lists_foldl outs ⟨[], [], [], [], []⟩
  unfold AEWFDoc.from_outputs_lists
  rw [h]
  simp [List.countP_eq_length_filter]

/-! ## The `eos_check` call of `AEWFDoc.from_outputs` -/

/-- Keyword parameters accepted by `AEWFDoc.from_outputs`
(`atomate2/common/schemas/aewf.py`, lines 219-224): the classmethod takes
only `eos_outputs` and `relax_outputs` and has no `**kwargs`. -/
def from_outputs_params : List String := ["eos_outputs", "relax_outputs"]

/-- Keyword argument names that `eos_check` passes to `AEWFDoc.from_outputs`
beyond the positional arguments (`atomate2/common/jobs/aewf.py`,
lines 56-58): `setname` and `flow_uuid`. -/
def eos_check_kwargs : List String := ["setname", "flow_uuid"]

/-- Python keyword-call semantics: a call raises `TypeError` unless every
keyword argument name is among the callee's parameters. -/
def kwargsAccepted (params kwargs : List String) : Bool :=
  kwargs.all params.contains

/-- Shallow embedding of `eos_check` (`atomate2/common/jobs/aewf.py`,
lines 27-86) restricted to its first step, the
`AEWFDoc.from_outputs(jobs_outputs, relax_outputs, setname=..., flow_uuid=...)`
call: per Python call semantics the call raises `TypeError` when a passed
keyword is not a parameter of the callee, and otherwise would produce the
document (whose list content is `AEWFDoc.from_outputs_lists`).  The
`relax` argument models `relax_outputs` (uuid and directory), which the
modelled list content does not use. -/
def eos_check (outs : List EosOut) (relax : Option (String × String)) :
    Except String AewfLists :=
  if kwargsAccepted from_outputs_params eos_check_kwargs then
    .ok (AEWFDoc.from_outputs_lists outs)
  else .error "TypeError"

/-- C4 (code bug): every call of `eos_check` raises `TypeError`, because it
forwards the keyword arguments `setname` and `flow_uuid` to
`AEWFDoc.from_outputs`, whose signature accepts neither; no `AEWFDoc` is ever
produced, contrary to the claim (and to the function's own docstring). -/
theorem C4_eos_check_type_error (outs : List EosOut)
    (relax : Option (String × String)) :
    eos_check outs relax = Except.error "TypeError" := rfl

/-! ## Index algebra for numpy row-major reshapes

Arrays of shape (N, 3) appear throughout the anharmonicity code; their
row-major flat index is `3*a + c` for atom `a` and cartesian component `c`,
and numpy's `reshape` / `flatten` split a flat index `i` into `(i / 3, i % 3)`.
-/

/-- Packing of an (atom, cartesian-component) pair into a row-major flat
index. -/
def finPack {n : ℕ} (a : Fin n) (c : Fin 3) : Fin (3 * n) :=
  ⟨3 * a.val + c.val, by have := a.isLt; have := c.isLt; omega⟩

/-- Packing and the `(i / 3, i % 3)` split are inverse: the pairs and the
flat indices are equivalent. -/
def finPackEquiv {n : ℕ} : Fin n × Fin 3 ≃ Fin (3 * n) where
  toFun p := finPack p.1 p.2
  invFun j :=
    (⟨j.val / 3, by have := j.isLt; omega⟩, ⟨j.val % 3, by omega⟩)
  left_inv := by
    rintro ⟨a, c⟩
    have ha := a.isLt
    have hc := c.isLt
    simp only [finPack, Prod.mk.injEq]
    constructor <;> (apply Fin.ext; simp; omega)
  right_inv := by
    intro j
    apply Fin.ext
    simp [finPack]
    omega

/-- A sum over flat indices is the double sum over atoms and cartesian
components. -/
theorem sum_fin_three_mul {n : ℕ} (f : Fin (3 * n) → ℝ) :
    (∑ j, f j) = ∑ a : Fin n, ∑ c : Fin 3, f (finPack a c) := by
  have h1 : (∑ p : Fin n × Fin 3, f (finPackEquiv p)) = ∑ j, f j :=
    Fintype.sum_equiv finPackEquiv _ _ (fun p => rfl)
  rw [← h1, Fintype.sum_prod_type]
  rfl

/-! ## Harmonic force reconstruction (`get_forces`) -/

/-- Translation of
`np.swapaxes(force_constants, 1, 2).reshape(2 * (len(supercell) * 3,))`
(`atomate2/common/jobs/anharmonicity.py`, lines 225-229): the (N, N, 3, 3)
force-constant array with axes 1 and 2 swapped is an (N, 3, N, 3) array, and
its row-major reshape to (3N, 3N) has entry `(i, j)` equal to
`fc[i/3][j/3][i%3][j%3]`. -/
def fc2d {n : ℕ} (fc : Fin n → Fin n → Fin 3 → Fin 3 → ℝ) :
    Fin (3 * n) → Fin (3 * n) → ℝ :=
  fun i j =>
    fc ⟨i.val / 3, by have := i.isLt; omega⟩
      ⟨j.val / 3, by have := j.isLt; omega⟩
      ⟨i.val % 3, by omega⟩ ⟨j.val % 3, by omega⟩

/-- Translation of `displacement.flatten()` for an (N, 3) array. -/
def flatten2 {n : ℕ} (d : Fin n → Fin 3 → ℝ) : Fin (3 * n) → ℝ :=
  fun j => d ⟨j.val / 3, by have := j.isLt; omega⟩ ⟨j.val % 3, by omega⟩

/-- Translation of `v.reshape((-1, 3))` for a (3N,) vector. -/
def unflatten2 {n : ℕ} (v : Fin (3 * n) → ℝ) : Fin n → Fin 3 → ℝ :=
  fun a c => v (finPack a c)

/-- The reshaped force-constant matrix at packed indices recovers the
original force-constant entries. -/
theorem fc2d_finPack {n : ℕ} (fc : Fin n → Fin n → Fin 3 → Fin 3 → ℝ)
    (a b : Fin n) (c d : Fin 3) :
    fc2d fc (finPack a c) (finPack b d) = fc a b c d := by
  have ha := a.isLt
  have hb := b.isLt
  have hc := c.isLt
  have hd := d.isLt
  unfold fc2d finPack
  congr 1 <;> (apply Fin.ext; simp; omega)

/-- Flattening at a packed index recovers the original entry. -/
theorem flatten2_finPack {n : ℕ} (d : Fin n → Fin 3 → ℝ) (b : Fin n)
    (c : Fin 3) : flatten2 d (finPack b c) = d b c := by
  have hb := b.isLt
  have hc := c.isLt
  unfold flatten2 finPack
  congr 1 <;> (apply Fin.ext; simp; omega)

/-- Shallow embedding of `get_forces`
(`atomate2/common/jobs/anharmonicity.py`, lines 208-253).  The displaced
cartesian coordinates and the DFT forces are the entries of
`displaced_structures["coords"]` and `displaced_structures["forces"]` (in the
`Calculation` branch the coordinates are first extracted from the calculation
document; both branches yield the coordinate arrays modelled here).  Each
harmonic force is `(-fc2d @ displacement.flatten()).reshape((-1, 3))` where
`displacement` is the displaced coordinates minus the supercell
coordinates. -/
def get_forces {n : ℕ} (fc : Fin n → Fin n → Fin 3 → Fin 3 → ℝ)
    (phonon_supercell : Fin n → Fin 3 → ℝ)
    (coords : List (Fin n → Fin 3 → ℝ))
    (forces : List (Fin n → Fin 3 → ℝ)) :
    List (Fin n → Fin 3 → ℝ) × List (Fin n → Fin 3 → ℝ) :=
  let displacements :=
    coords.map (fun c b β => c b β - phonon_supercell b β)
  let harmonic_forces := displacements.map
    (fun d => unflatten2 (fun i => -(∑ j, fc2d fc i j * flatten2 d j)))
  (forces, harmonic_forces)

/-- C7: `get_forces` returns the pair of the DFT forces and the harmonic
forces, one entry per displaced structure in input order, and the harmonic
force of a displaced structure with coordinates `c` is, componentwise, minus
the contraction of the force constants with the displacement `c - supercell`:
`-(sum over atoms b and components β of fc[a][b][α][β] * (c[b][β] - sc[b][β]))`. -/
theorem C7_get_forces {n : ℕ} (fc : Fin n → Fin n → Fin 3 → Fin 3 → ℝ)
    (phonon_supercell : Fin n → Fin 3 → ℝ)
    (coords : List (Fin n → Fin 3 → ℝ))
    (forces : List (Fin n → Fin 3 → ℝ)) :
    (get_forces fc phonon_supercell coords forces).1 = forces ∧
    (get_forces fc phonon_supercell coords forces).2 =
      coords.map (fun c a α =>
        -(∑ b : Fin n, ∑ β : Fin 3,
            fc a b α β * (c b β - phonon_supercell b β))) := by
  refine ⟨rfl, ?_⟩
  unfold get_forces
  dsimp only
  rw [List.map_map]
  refine congrArg (fun F => List.map F coords)
    (funext fun c => funext fun a => funext fun α => ?_)
  show unflatten2
      (fun i => -(∑ j, fc2d fc i j *
        flatten2 (fun b β => c b β - phonon_supercell b β) j)) a α = _
  unfold unflatten2
  dsimp only
  rw [sum_fin_three_mul
    (fun j => fc2d fc (finPack a α) j *
      flatten2 (fun b β => c b β - phonon_supercell b β) j)]
  simp only [fc2d_finPack, flatten2_finPack]

/-! ## The Birch-Murnaghan model energy (`birch_murnaghan`) -/

/-- Shallow embedding of `birch_murnaghan`
(`atomate2/common/schemas/aewf.py`, lines 73-103), elementwise over the
volume array: `r = (min_volume / volumes) ** (2/3)` and the energy is
`min_energy + 9/16 * bulk_modulus * min_volume * (r-1)**2 *
(2 + (bulk_deriv - 4) * (r-1))`. -/
noncomputable def birch_murnaghan (volumes : List ℝ) (min_volume min_energy
    bulk_modulus bulk_deriv : ℝ) : List ℝ :=
  volumes.map (fun v =>
    let r := (min_volume / v) ^ ((2 : ℝ) / 3)
    min_energy + 9 / 16 * bulk_modulus * min_volume * (r - 1) ^ 2 *
      (2 + (bulk_deriv - 4) * (r - 1)))

/-- C8: `birch_murnaghan` returns, elementwise, the Birch-Murnaghan model
energy `min_energy + (9/16) * bulk_modulus * min_volume * (r - 1)^2 *
(2 + (bulk_deriv - 4) * (r - 1))` with `r = (min_volume / v)^(2/3)`. -/
theorem C8_birch_murnaghan (volumes : List ℝ) (min_volume min_energy
    bulk_modulus bulk_deriv : ℝ) :
    birch_murnaghan volumes min_volume min_energy bulk_modulus bulk_deriv =
      volumes.map (fun v =>
        min_energy + 9 / 16 * bulk_modulus * min_volume *
          ((min_volume / v) ^ ((2 : ℝ) / 3) - 1) ^ 2 *
          (2 + (bulk_deriv - 4) * ((min_volume / v) ^ ((2 : ℝ) / 3) - 1))) :=
  rfl

/-! ## The anharmonicity measure (`get_sigma_a`) -/

/-- Row-major listing of the entries of an (N, 3) array. -/
def matToList {n : ℕ} (m : Fin n → Fin 3 → ℝ) : List ℝ :=
  ((List.finRange n).map (fun a => (List.finRange 3).map (fun c => m a c))).flatten

/-- Row-major listing of the entries of a (k, N, 3) array given as a list of
(N, 3) arrays (`np.array` of a list of equal-shape arrays stacks them). -/
def flatten3 {n : ℕ} (l : List (Fin n → Fin 3 → ℝ)) : List ℝ :=
  (l.map matToList).flatten

/-- Shallow embedding of `np.std`: the population standard deviation, the
square root of the mean squared deviation from the mean. -/
noncomputable def npStd (xs : List ℝ) : ℝ :=
  Real.sqrt ((xs.map (fun x => (x - xs.sum / xs.length) ^ 2)).sum / xs.length)

/-- Shallow embedding of `get_sigma_a`
(`atomate2/common/jobs/anharmonicity.py`, lines 255-275): the anharmonic
forces are the pairwise differences (over `zip`) of the DFT and harmonic
force arrays, and the result is `np.std(anharmonic) / np.std(dft)`. -/
noncomputable def get_sigma_a {n : ℕ}
    (dft_forces harmonic_forces : List (Fin n → Fin 3 → ℝ)) : ℝ :=
  let anharmonic_forces := List.zipWith
    (fun d h (a : Fin n) (c : Fin 3) => d a c - h a c) dft_forces
    harmonic_forces
  npStd (flatten3 anharmonic_forces) / npStd (flatten3 dft_forces)

/-- C6: for equally shaped force stacks (`k` structures of `N` atoms), the
anharmonicity statistic is the standard deviation of the elementwise force
difference divided by the standard deviation of the DFT forces. -/
theorem C6_get_sigma_a {n k : ℕ} (F G : Fin k → Fin n → Fin 3 → ℝ) :
    get_sigma_a ((List.finRange k).map F) ((List.finRange k).map G) =
      npStd (flatten3 ((List.finRange k).map
          (fun i a c => F i a c - G i a c))) /
        npStd (flatten3 ((List.finRange k).map F)) := by
  unfold get_sigma_a
  have hzip : ∀ l : List (Fin k),
      List.zipWith (fun d h (a : Fin n) (c : Fin 3) => d a c - h a c)
        (l.map F) (l.map G) = l.map (fun i a c => F i a c - G i a c) := by
    intro l
    induction l with
    | nil => rfl
    | cons x t ih => simp [ih]
  rw [hzip]

/-! ## The Birch-Murnaghan fit (`bm`)

The function `bm` (`atomate2/common/schemas/aewf.py`, lines 14-70) calls two
external numpy routines: `np.polyfit` (whose outputs, the fitted cubic
coefficients `fitdata[0]` and the residual sum of squares `fitdata[1]`, are
the parameters `coeffs` and `ssr` of the embedding) and `np.roots` (whose
output list is the parameter `roots`; the roots of a float polynomial have
float, hence rational, real and imaginary parts).  Everything else — the
polynomial derivatives, the total sum of squares, the root-selection loop with
numpy's lexicographic complex comparison, and the returned quantities — is
computed by the repository and is translated here. -/

/-- A complex number with rational real and imaginary parts: the exact model
of one entry of the `np.roots` output. -/
structure CQ where
  re : ℚ
  im : ℚ
deriving DecidableEq

/-- Complex multiplication on rational complex numbers. -/
def CQ.mul (x y : CQ) : CQ :=
  ⟨x.re * y.re - x.im * y.im, x.re * y.im + x.im * y.re⟩

/-- The inclusion of rational complex numbers into `ℂ`. -/
def CQ.toC (x : CQ) : ℂ := ⟨(x.re : ℝ), (x.im : ℝ)⟩

/-- Horner evaluation of a `np.poly1d` polynomial (coefficients listed from
the highest degree down) at a rational complex point. -/
def npPolyvalQ (p : List ℚ) (x : CQ) : CQ :=
  p.foldl (fun acc c => ⟨(acc.mul x).re + c, (acc.mul x).im⟩) ⟨0, 0⟩

/-- Horner evaluation of a `np.poly1d` polynomial at a complex point. -/
noncomputable def npPolyvalC (p : List ℚ) (x : ℂ) : ℂ :=
  p.foldl (fun acc c => acc * x + (c : ℂ)) 0

/-- Translation of `np.polyder(p, 1)`: coefficient `i` of the derivative of a
polynomial of degree `len(p) - 1` is `p[i] * (len(p) - 1 - i)`. -/
def npPolyder (p : List ℚ) : List ℚ :=
  (List.range (p.length - 1)).map
    (fun i => p.getD i 0 * ((p.length - 1 - i : ℕ) : ℚ))

/-- numpy's ordering of complex values is lexicographic: `x > 0` holds when
`x.real > 0`, or `x.real == 0` and `x.imag > 0`. -/
def npGTzero (x : CQ) : Bool :=
  decide (0 < x.re ∨ (x.re = 0 ∧ 0 < x.im))

/-- The root-selection test of the loop in `bm` (line 53 of the source):
`x > 0 and deriv2(x) > 0 and abs(x.imag) < 1.0e-8`. -/
def bmCond (deriv2 : List ℚ) (x : CQ) : Bool :=
  npGTzero x && npGTzero (npPolyvalQ deriv2 x) &&
    decide (|x.im| < 1 / 100000000)

/-- Shallow embedding of `bm`.  The Python loop assigns
`volume0 = x ** (-3/2)` and breaks at the first root passing `bmCond`;
`volume0 == 0` afterwards (no root passed, since a passing root gives a
nonzero power) raises `ValueError("Error: No minimum could be found")`.
Otherwise the 5-tuple
`(volume0, deriv0(x), bulk_modulus0, bulk_deriv0, ssr / sst)` is returned,
with `deriv_v2 = 4/9 * x^5 * deriv2(x)`,
`deriv_v3 = -20/9 * x^(13/2) * deriv2(x) - 8/27 * x^(15/2) * deriv3(x)`,
`bulk_modulus0 = deriv_v2 / x^(3/2)` and
`bulk_deriv0 = -1 - x^(-3/2) * deriv_v3 / deriv_v2`. -/
noncomputable def bm (coeffs : List ℚ) (ssr : ℝ) (energies : List ℚ)
    (roots : List CQ) : Except String (ℂ × ℂ × ℂ × ℂ × ℝ) :=
  let deriv1 := npPolyder coeffs
  let deriv2 := npPolyder deriv1
  let deriv3 := npPolyder deriv2
  let sst : ℚ :=
    (energies.map (fun e => (e - energies.sum / energies.length) ^ 2)).sum
  let residuals0 : ℝ := ssr / (sst : ℝ)
  match roots.find? (bmCond deriv2) with
  | none => .error "Error: No minimum could be found"
  | some xq =>
    let x : ℂ := xq.toC
    let volume0 : ℂ := x ^ (-(3 : ℂ) / 2)
    if volume0 = 0 then .error "Error: No minimum could be found"
    else
      let min_energy := npPolyvalC coeffs x
      let d2x := npPolyvalC deriv2 x
      let d3x := npPolyvalC deriv3 x
      let deriv_v2 := 4 / 9 * x ^ (5 : ℂ) * d2x
      let deriv_v3 := -20 / 9 * x ^ ((13 : ℂ) / 2) * d2x -
        8 / 27 * x ^ ((15 : ℂ) / 2) * d3x
      let bulk_modulus0 := deriv_v2 / x ^ ((3 : ℂ) / 2)
      let bulk_deriv0 := -1 - x ^ (-(3 : ℂ) / 2) * deriv_v3 / deriv_v2
      .ok (volume0, min_energy, bulk_modulus0, bulk_deriv0, residuals0)

/-- C3: `bm` raises `ValueError` exactly when no root `x` of the fitted
polynomial's first derivative satisfies `x > 0` (numpy's lexicographic
complex order), `deriv2(x) > 0` and `|Im x| < 1e-8`; otherwise it returns the
5-tuple `(x^(-3/2), deriv0(x), bulk modulus, bulk derivative, ssr/sst)`
computed from the first such root, the minimum volume being `x^(-3/2)`. -/
theorem C3_bm (coeffs : List ℚ) (ssr : ℝ) (energies : List ℚ)
    (roots : List CQ) :
    ((∃ msg, bm coeffs ssr energies roots = Except.error msg) ↔
      ∀ x ∈ roots,
        ¬(npGTzero x = true ∧
          npGTzero (npPolyvalQ (npPolyder (npPolyder coeffs)) x) = true ∧
          |x.im| < 1 / 100000000)) ∧
    (∀ xq, roots.find? (bmCond (npPolyder (npPolyder coeffs))) = some xq →
      bm coeffs ssr energies roots =
        Except.ok (xq.toC ^ (-(3 : ℂ) / 2), npPolyvalC coeffs xq.toC,
          4 / 9 * xq.toC ^ (5 : ℂ) *
              npPolyvalC (npPolyder (npPolyder coeffs)) xq.toC /
            xq.toC ^ ((3 : ℂ) / 2),
          -1 - xq.toC ^ (-(3 : ℂ) / 2) *
              (-20 / 9 * xq.toC ^ ((13 : ℂ) / 2) *
                  npPolyvalC (npPolyder (npPolyder coeffs)) xq.toC -
                8 / 27 * xq.toC ^ ((15 : ℂ) / 2) *
                  npPolyvalC (npPolyder (npPolyder (npPolyder coeffs)))
                    xq.toC) /
            (4 / 9 * xq.toC ^ (5 : ℂ) *
              npPolyvalC (npPolyder (npPolyder coeffs)) xq.toC),
          ssr /
            ((((energies.map
                (fun e => (e - energies.sum / energies.length) ^ 2)).sum :
                ℚ) : ℝ)))) := by
  have hcond : ∀ x : CQ,
      bmCond (npPolyder (npPolyder coeffs)) x = true ↔
        (npGTzero x = true ∧
          npGTzero (npPolyvalQ (npPolyder (npPolyder coeffs)) x) = true ∧
          |x.im| < 1 / 100000000) := by
    intro x
    simp [bmCond, and_assoc]
  have hok : ∀ xq,
      roots.find? (bmCond (npPolyder (npPolyder coeffs))) = some xq →
      bm coeffs ssr energies roots =
        Except.ok (xq.toC ^ (-(3 : ℂ) / 2), npPolyvalC coeffs xq.toC,
          4 / 9 * xq.toC ^ (5 : ℂ) *
              npPolyvalC (npPolyder (npPolyder coeffs)) xq.toC /
            xq.toC ^ ((3 : ℂ) / 2),
          -1 - xq.toC ^ (-(3 : ℂ) / 2) *
              (-20 / 9 * xq.toC ^ ((13 : ℂ) / 2) *
                  npPolyvalC (npPolyder (npPolyder coeffs)) xq.toC -
                8 / 27 * xq.toC ^ ((15 : ℂ) / 2) *
                  npPolyvalC (npPolyder (npPolyder (npPolyder coeffs)))
                    xq.toC) /
            (4 / 9 * xq.toC ^ (5 : ℂ) *
              npPolyvalC (npPolyder (npPolyder coeffs)) xq.toC),
          ssr /
            ((((energies.map
                (fun e => (e - energies.sum / energies.length) ^ 2)).sum :
                ℚ) : ℝ))) := by
    intro xq hfind
    have hx : bmCond (npPolyder (npPolyder coeffs)) xq = true :=
      List.find?_some hfind
    have hgt : 0 < xq.re ∨ (xq.re = 0 ∧ 0 < xq.im) := by
      have := ((hcond xq).mp hx).1
      simpa [npGTzero] using this
    have hne : xq.toC ≠ 0 := by
      intro h0
      have h01 := Complex.ext_iff.mp h0
      have hre : xq.re = 0 := by
        have : (xq.re : ℝ) = 0 := by simpa [CQ.toC] using h01.1
        exact_mod_cast this
      have him : xq.im = 0 := by
        have : (xq.im : ℝ) = 0 := by simpa [CQ.toC] using h01.2
        exact_mod_cast this
      rcases hgt with h | ⟨h1, h2⟩
      · exact absurd hre (ne_of_gt h)
      · exact absurd him (ne_of_gt h2)
    have hvol : xq.toC ^ (-(3 : ℂ) / 2) ≠ 0 := by
      rw [Ne, Complex.cpow_eq_zero_iff]
      rintro ⟨h0, _⟩
      exact hne h0
    unfold bm
    dsimp only
    rw [hfind]
    dsimp only
    rw [if_neg hvol]
  constructor
  · constructor
    · rintro ⟨msg, herr⟩ x hxmem hconj
      rcases hfind : roots.find? (bmCond (npPolyder (npPolyder coeffs)))
        with _ | xq
      · have hfail := List.find?_eq_none.mp hfind x hxmem
        exact hfail ((hcond x).mpr hconj)
      · rw [hok xq hfind] at herr
        cases herr
    · intro hall
      refine ⟨"Error: No minimum could be found", ?_⟩
      have hnone : roots.find? (bmCond (npPolyder (npPolyder coeffs))) =
          none :=
        List.find?_eq_none.mpr
          (fun x hxmem hc => hall x hxmem ((hcond x).mp hc))
      unfold bm
      dsimp only
      rw [hnone]
  · exact hok

/-- C3 (witness): for the fitted cubic `x^3 - 3x` (derivative roots `±1`,
listed as `[-1, 1]`), `bm` skips `-1`, selects the first passing root `1`,
and returns the concrete 5-tuple. -/
theorem C3_bm_witness :
    bm [1, 0, -3, 0] 0 [] [⟨-1, 0⟩, ⟨1, 0⟩] =
      Except.ok (1, -2, 8 / 3, 14 / 3, 0) := by
  have hd2 : npPolyder (npPolyder [(1 : ℚ), 0, -3, 0]) = [6, 0] := by
    norm_num [npPolyder, List.range_succ]
  have h3 : npPolyder [(6 : ℚ), 0] = [6] := by
    norm_num [npPolyder, List.range_succ]
  have hd3 : npPolyder (npPolyder (npPolyder [(1 : ℚ), 0, -3, 0])) = [6] := by
    rw [hd2, h3]
  have hfind :
      List.find? (bmCond (npPolyder (npPolyder [1, 0, -3, 0])))
        [(⟨-1, 0⟩ : CQ), ⟨1, 0⟩] = some ⟨1, 0⟩ := by
    rw [hd2]
    rw [List.find?_cons_of_neg, List.find?_cons_of_pos] <;>
      norm_num [bmCond, npGTzero, npPolyvalQ, CQ.mul]
  have h := (C3_bm [1, 0, -3, 0] 0 [] [⟨-1, 0⟩, ⟨1, 0⟩]).2 ⟨1, 0⟩ hfind
  rw [h, hd3, hd2]
  have hx : (⟨(1 : ℚ), (0 : ℚ)⟩ : CQ).toC = 1 := by
    simp [CQ.toC, Complex.ext_iff]
  rw [hx]
  have hv0 : npPolyvalC [(1 : ℚ), 0, -3, 0] 1 = -2 := by
    norm_num [npPolyvalC]
  have hv2 : npPolyvalC [(6 : ℚ), 0] 1 = 6 := by
    norm_num [npPolyvalC]
  have hv3 : npPolyvalC [(6 : ℚ)] 1 = 6 := by
    norm_num [npPolyvalC]
  rw [hv0, hv2, hv3]
  simp only [Complex.one_cpow, Except.ok.injEq, Prod.mk.injEq]
  norm_num

/-! ## Thermal displacement (`displace_structure` / `box_muller`)

The eigendecomposition `np.linalg.eigh(dynamical_matrix)` is external; its
outputs are the parameters `eigVal`, `eigVec` (linked to the embedded
dynamical matrix through the hypothesis of the claim's theorem).  The random
draws of `numpy.random.rand` are the parameters `u` and `v`.  The Boltzmann
constant `kb` imported from `pymatgen.core.units` is the parameter `kbv`. -/

/-- Translation of `(masses ** -0.5).repeat(3)`
(`atomate2/common/jobs/anharmonicity.py`, lines 178-179): each inverse square
root of a mass appears three times consecutively, so flat entry `i` is
`masses[i / 3] ** -0.5`. -/
noncomputable def rminv {n : ℕ} (masses : Fin n → ℝ) : Fin (3 * n) → ℝ :=
  fun i => masses ⟨i.val / 3, by have := i.isLt; omega⟩ ^ (-(1 : ℝ) / 2)

/-- The mass-weighted dynamical matrix (line 180 of the source):
`dynamical_matrix = force_constants_2d * rminv[:, None] * rminv[None, :]`. -/
noncomputable def dynamical_matrix {n : ℕ}
    (fc : Fin n → Fin n → Fin 3 → Fin 3 → ℝ) (masses : Fin n → ℝ) :
    Fin (3 * n) → Fin (3 * n) → ℝ :=
  fun i j => fc2d fc i j * rminv masses i * rminv masses j

/-- Translation of `eig_val = np.sqrt(eig_val[3:])` (line 183): the first
three (translational) modes are discarded and the mode frequencies are the
square roots of the remaining eigenvalues. -/
noncomputable def modeOmega {n : ℕ} (eigVal : Fin (3 * n) → ℝ) :
    Fin (3 * n - 3) → ℝ :=
  fun s => Real.sqrt (eigVal ⟨s.val + 3, by have := s.isLt; omega⟩)

/-- Translation of `x_acs = eig_vec[:, 3:].reshape((-1, 3, len(eig_val)))`
(line 184): dropping the first three columns of the (3N, 3N) eigenvector
matrix and reshaping row-major to (N, 3, M) gives entry
`(a, c, s) = eig_vec[3a + c][s + 3]`. -/
def x_acs {n : ℕ} (eigVec : Fin (3 * n) → Fin (3 * n) → ℝ) :
    Fin n → Fin 3 → Fin (3 * n - 3) → ℝ :=
  fun a c s => eigVec (finPack a c) ⟨s.val + 3, by have := s.isLt; omega⟩

/-- The flattened (N, 3) slice `vec = x_acs[:, :, s]` used by the gauge loop
(`vec.flat`, lines 187-190). -/
def modeVecFlat {n : ℕ} (eigVec : Fin (3 * n) → Fin (3 * n) → ℝ)
    (s : Fin (3 * n - 3)) : Fin (3 * n) → ℝ :=
  flatten2 (fun a c => x_acs eigVec a c s)

/-- Translation of `np.argmax` over the absolute values of a vector: the
first index attaining the maximum (a strictly larger value replaces the
running best). -/
noncomputable def npArgmaxAbs {m : ℕ} (v : Fin m → ℝ) : Option (Fin m) :=
  (List.finRange m).foldl
    (fun best i =>
      match best with
      | none => some i
      | some b => if |v b| < |v i| then some i else some b)
    none

/-- Translation of `np.sign`. -/
noncomputable def npSign (x : ℝ) : ℝ :=
  if 0 < x then 1 else if x < 0 then -1 else 0

/-- The gauge factor of mode `s`
(`np.sign(vec.flat[np.argmax(abs(vec))])`, lines 187-190). -/
noncomputable def gaugeFactor {n : ℕ} (eigVec : Fin (3 * n) → Fin (3 * n) → ℝ)
    (s : Fin (3 * n - 3)) : ℝ :=
  match npArgmaxAbs (modeVecFlat eigVec s) with
  | none => 1
  | some mx => npSign (modeVecFlat eigVec s mx)

/-- The eigenvector components after the in-place gauge loop
`x_acs[:, :, ii] *= np.sign(vec.flat[max_arg])`. -/
noncomputable def x_acs_gauged {n : ℕ}
    (eigVec : Fin (3 * n) → Fin (3 * n) → ℝ) :
    Fin n → Fin 3 → Fin (3 * n - 3) → ℝ :=
  fun a c s => gaugeFactor eigVec s * x_acs eigVec a c s

/-- Shallow embedding of `box_muller`
(`atomate2/common/jobs/anharmonicity.py`, lines 108-140):
`spread = sqrt(-2 ln(1 - u))`, `A_s = spread * (sqrt(temp * kb) / eig_vals)`,
`phi_s = 2 pi v`, and `d_ac = (A_s * cos(phi_s) * eig_vecs).sum(axis=2)`.
The two `rand(n_eigvals)` draws are the parameters `u` and `v`. -/
noncomputable def box_muller {n : ℕ} (eig_vals : Fin (3 * n - 3) → ℝ)
    (eig_vecs : Fin n → Fin 3 → Fin (3 * n - 3) → ℝ) (temp kbv : ℝ)
    (u v : Fin (3 * n - 3) → ℝ) : Fin n → Fin 3 → ℝ :=
  fun a c =>
    ∑ s, Real.sqrt (-2 * Real.log (1 - u s)) *
      (Real.sqrt (temp * kbv) / eig_vals s) * Real.cos (2 * Real.pi * v s) *
      eig_vecs a c s

/-- Shallow embedding of `displace_structure`
(`atomate2/common/jobs/anharmonicity.py`, lines 142-205): the returned
structure keeps the lattice and species and has cartesian coordinates
`coords + disp`, where `disp` is the one-shot deterministic displacement
`(a_s * x_acs).sum(axis=2) * inv_sqrt_mass[:, None]` with
`a_s = sqrt(temp * kb) / eig_val * (-1)^s`, or the Box-Muller sampled
displacement when `one_shot` is false.  The force constants enter through
the dynamical matrix whose eigendecomposition is the parameter pair
`(eigVal, eigVec)`. -/
noncomputable def displace_structure {n : ℕ} (coords : Fin n → Fin 3 → ℝ)
    (masses : Fin n → ℝ) (temp kbv : ℝ) (one_shot : Bool)
    (eigVal : Fin (3 * n) → ℝ) (eigVec : Fin (3 * n) → Fin (3 * n) → ℝ)
    (u v : Fin (3 * n - 3) → ℝ) : Fin n → Fin 3 → ℝ :=
  let eig_val := modeOmega eigVal
  let xg := x_acs_gauged eigVec
  let inv_sqrt_mass : Fin n → ℝ := fun a => masses a ^ (-(1 : ℝ) / 2)
  let disp : Fin n → Fin 3 → ℝ :=
    if one_shot then
      fun a c =>
        (∑ s, Real.sqrt (temp * kbv) / eig_val s * (-1) ^ (s : ℕ) *
          xg a c s) * inv_sqrt_mass a
    else
      fun a c => box_muller eig_val xg temp kbv u v a c * inv_sqrt_mass a
  fun a c => coords a c + disp a c

/-- Invariant of the `npArgmaxAbs` fold started from a running best `b`: the
result exists, dominates `b`, and dominates every element of the remaining
list. -/
theorem argmaxAbs_foldl_spec {m : ℕ} (v : Fin m → ℝ) (l : List (Fin m))
    (b : Fin m) :
    ∃ r, (l.foldl
        (fun best i =>
          match best with
          | none => some i
          | some b => if |v b| < |v i| then some i else some b)
        (some b) = some r) ∧ |v b| ≤ |v r| ∧ ∀ i ∈ l, |v i| ≤ |v r| := by
  induction l generalizing b with
  | nil => exact ⟨b, rfl, le_refl _, by simp⟩
  | cons i t ih =>
    by_cases hlt : |v b| < |v i|
    · obtain ⟨r, hr, hir, hall⟩ := ih i
      refine ⟨r, ?_, le_trans (le_of_lt hlt) hir, ?_⟩
      · simpa [hlt] using hr
      · intro x hx
        rcases List.mem_cons.mp hx with rfl | hxt
        · exact hir
        · exact hall x hxt
    · obtain ⟨r, hr, hbr, hall⟩ := ih b
      refine ⟨r, ?_, hbr, ?_⟩
      · simpa [hlt] using hr
      · intro x hx
        rcases List.mem_cons.mp hx with rfl | hxt
        · exact le_trans (not_lt.mp hlt) hbr
        · exact hall x hxt

/-- For a nonempty index type, `npArgmaxAbs` returns an index whose absolute
value dominates all entries. -/
theorem npArgmaxAbs_spec {m : ℕ} (v : Fin m → ℝ) (hm : 0 < m) :
    ∃ mx, npArgmaxAbs v = some mx ∧ ∀ i : Fin m, |v i| ≤ |v mx| := by
  unfold npArgmaxAbs
  rcases hl : List.finRange m with _ | ⟨h0, t⟩
  · have := congrArg List.length hl
    simp at this
    omega
  · simp only [List.foldl_cons]
    obtain ⟨r, hr, hbr, hall⟩ := argmaxAbs_foldl_spec v t h0
    refine ⟨r, hr, fun i => ?_⟩
    have hi : i ∈ List.finRange m := List.mem_finRange i
    rw [hl] at hi
    rcases List.mem_cons.mp hi with rfl | hit
    · exact hbr
    · exact hall i hit

/-- Multiplying a nonzero real by its numpy sign gives its absolute value. -/
theorem npSign_mul_self (x : ℝ) (hx : x ≠ 0) : npSign x * x = |x| := by
  unfold npSign
  rcases lt_trichotomy x 0 with h | h | h
  · rw [if_neg (by linarith), if_pos h, abs_of_neg h]
    ring
  · exact absurd h hx
  · rw [if_pos h, abs_of_pos h]
    ring

/-- The numpy sign of a nonzero real has absolute value one. -/
theorem npSign_abs (x : ℝ) (hx : x ≠ 0) : |npSign x| = 1 := by
  unfold npSign
  rcases lt_trichotomy x 0 with h | h | h
  · rw [if_neg (by linarith), if_pos h]
    norm_num
  · exact absurd h hx
  · rw [if_pos h]
    norm_num

/-- C5: with `one_shot=True`, `displace_structure` deterministically returns
the structure whose cartesian coordinates are the originals plus the sum over
modes of `(-1)^s * sqrt(kB*T) / omega_s` times the gauge-fixed eigenvector,
scaled per atom by `mass^(-1/2)`, where `omega_s` is the square root of
eigenvalue `s + 3` (the first three, translational, modes are discarded) of
the eigendecomposition of the mass-weighted dynamical matrix (the hypothesis
`hEig`); with `one_shot=False` the amplitudes are the Box-Muller draws
`sqrt(-2 ln(1-u)) * sqrt(kB*T)/omega_s` with phases `2 pi v`; and each
gauge-fixed eigenvector with a nonzero component has its largest-magnitude
component positive. -/
theorem C5_displace_structure {n : ℕ} (coords : Fin n → Fin 3 → ℝ)
    (masses : Fin n → ℝ) (fc : Fin n → Fin n → Fin 3 → Fin 3 → ℝ)
    (temp kbv : ℝ) (eigVal : Fin (3 * n) → ℝ)
    (eigVec : Fin (3 * n) → Fin (3 * n) → ℝ) (u v : Fin (3 * n - 3) → ℝ)
    (hEig : ∀ j i, (∑ k, dynamical_matrix fc masses i k * eigVec k j) =
      eigVal j * eigVec i j) :
    (∀ a c,
      displace_structure coords masses temp kbv true eigVal eigVec u v a c =
        coords a c +
          (∑ s : Fin (3 * n - 3),
            (-1) ^ (s : ℕ) * Real.sqrt (kbv * temp) /
                Real.sqrt (eigVal ⟨s.val + 3, by have := s.isLt; omega⟩) *
              x_acs_gauged eigVec a c s) *
            masses a ^ (-(1 : ℝ) / 2)) ∧
    (∀ a c,
      displace_structure coords masses temp kbv false eigVal eigVec u v a c =
        coords a c +
          (∑ s : Fin (3 * n - 3),
            Real.sqrt (-2 * Real.log (1 - u s)) *
                (Real.sqrt (kbv * temp) /
                  Real.sqrt (eigVal ⟨s.val + 3, by have := s.isLt; omega⟩)) *
                Real.cos (2 * Real.pi * v s) *
              x_acs_gauged eigVec a c s) *
            masses a ^ (-(1 : ℝ) / 2)) ∧
    (∀ s : Fin (3 * n - 3), (∃ k, modeVecFlat eigVec s k ≠ 0) →
      ∃ mx, npArgmaxAbs (modeVecFlat eigVec s) = some mx ∧
        0 < gaugeFactor eigVec s * modeVecFlat eigVec s mx ∧
        ∀ k, |gaugeFactor eigVec s * modeVecFlat eigVec s k| ≤
          gaugeFactor eigVec s * modeVecFlat eigVec s mx) := by
  refine ⟨?_, ?_, ?_⟩
  · intro a c
    unfold displace_structure
    dsimp only
    rw [if_pos rfl]
    refine congrArg (fun X => coords a c + X) ?_
    refine congrArg (fun X => X * masses a ^ (-(1 : ℝ) / 2)) ?_
    refine Finset.sum_congr rfl (fun s _ => ?_)
    unfold modeOmega
    rw [mul_comm kbv temp]
    ring
  · intro a c
    unfold displace_structure box_muller
    dsimp only
    rw [if_neg (by decide)]
    refine congrArg (fun X => coords a c + X) ?_
    refine congrArg (fun X => X * masses a ^ (-(1 : ℝ) / 2)) ?_
    refine Finset.sum_congr rfl (fun s _ => ?_)
    unfold modeOmega
    rw [mul_comm kbv temp]
  · rintro s ⟨k0, hk0⟩
    have hm : 0 < 3 * n := by have := k0.isLt; omega
    obtain ⟨mx, hmx, hall⟩ := npArgmaxAbs_spec (modeVecFlat eigVec s) hm
    have hmxne : modeVecFlat eigVec s mx ≠ 0 := by
      intro h0
      have hle := hall k0
      rw [h0] at hle
      simp at hle
      exact hk0 hle
    have hg : gaugeFactor eigVec s = npSign (modeVecFlat eigVec s mx) := by
      unfold gaugeFactor
      rw [hmx]
    refine ⟨mx, hmx, ?_, ?_⟩
    · rw [hg, npSign_mul_self _ hmxne]
      exact abs_pos.mpr hmxne
    · intro k
      rw [hg, abs_mul, npSign_abs _ hmxne, one_mul,
        npSign_mul_self _ hmxne]
      exact hall k

/-- C5 (witness): one atom of unit mass with identity force constants; the
identity eigenvector matrix with unit eigenvalues is a genuine
eigendecomposition of the dynamical matrix, there are `3*1 - 3 = 0`
non-translational modes, and the displaced coordinates equal the original
coordinates (here zero). -/
theorem C5_displace_structure_witness :
    displace_structure (n := 1) (fun _ _ => 0) (fun _ => 1) 0 1 true
      (fun _ => 1) (fun i j => if i = j then 1 else 0) (fun _ => 0)
      (fun _ => 0) ⟨0, by norm_num⟩ ⟨0, by norm_num⟩ = 0 := by
  have hEig : ∀ j i : Fin (3 * 1),
      (∑ k, dynamical_matrix
          (fun _ _ c d => if c = d then (1 : ℝ) else 0) (fun _ => 1) i k *
          (if k = j then (1 : ℝ) else 0)) =
        (fun _ : Fin (3 * 1) => (1 : ℝ)) j *
          (if i = j then (1 : ℝ) else 0) := by
    intro j i
    have hsum : (∑ k, dynamical_matrix
        (fun _ _ c d => if c = d then (1 : ℝ) else 0) (fun _ => 1) i k *
        (if k = j then (1 : ℝ) else 0)) =
        dynamical_matrix
          (fun _ _ c d => if c = d then (1 : ℝ) else 0) (fun _ => 1) i j := by
      simp [mul_ite, mul_one, mul_zero]
    rw [hsum]
    unfold dynamical_matrix rminv fc2d
    rw [Real.one_rpow]
    have hi := i.isLt
    have hj := j.isLt
    simp only [Fin.mk.injEq, Fin.ext_iff, mul_one, one_mul]
    rw [Nat.mod_eq_of_lt (by omega : i.val < 3),
      Nat.mod_eq_of_lt (by omega : j.val < 3)]
  have h := (C5_displace_structure (n := 1) (fun _ _ => 0) (fun _ => 1)
    (fun _ _ c d => if c = d then 1 else 0) 0 1 (fun _ => 1)
    (fun i j => if i = j then 1 else 0) (fun _ => 0) (fun _ => 0) hEig).1
    ⟨0, by norm_num⟩ ⟨0, by norm_num⟩
  rw [h]
  simp
